import Mathlib

/-!
Verification development for the pdf_wasm template/layout engine
(package `template`, file with `TemplateProcessor` and `PDFBuilder`).

Strings are embedded as `List Char`. Go's dynamic `interface{}` values
(as produced by JSON decoding or built programmatically) are embedded as
the inductive `Value`; Go's `map[string]interface{}` is embedded as an
association list in which the entry written last is stored first, so that
`lookupCtx` (first match wins) models map reads after overwrites.

The two regular expressions used by the engine are implemented as explicit
scanners with Go's leftmost-first matching semantics; floating point
numbers are embedded as rationals.
-/

namespace PdfWasm

/-- RE2's Perl class \s, i.e. [\t\n\f\r ], used by the marker regexes. -/
def reSpace (c : Char) : Bool :=
  c == ' ' || c == '\t' || c == '\n' || c == '\x0C' || c == '\r'

/-- Models `unicode.IsSpace` (as used by `strings.TrimSpace`) on the
Latin-1 range: \t \n \v \f \r space, NEL and NBSP. -/
def goSpace (c : Char) : Bool :=
  c == ' ' || c == '\t' || c == '\n' || c == '\x0B' || c == '\x0C' || c == '\r' ||
    c == '\x85' || c == '\xA0'

/-- Models `strings.TrimSpace`. -/
def goTrimSpace (s : List Char) : List Char :=
  ((s.dropWhile goSpace).reverse.dropWhile goSpace).reverse

/-- The cutset of `strings.Trim(match, "\x7b\x7d")`. -/
def curlyChar (c : Char) : Bool :=
  c == '{' || c == '}'

/-- Models `strings.Trim(s, "\x7b\x7d")`: strip leading and trailing braces. -/
def trimCurly (s : List Char) : List Char :=
  ((s.dropWhile curlyChar).reverse.dropWhile curlyChar).reverse

/-- Base-10 digits of a natural number, accumulator style.  The fuel is
only a structural-recursion device; `natChars` supplies enough of it. -/
def natCharsAux : Nat → Nat → List Char → List Char
  | 0, _, acc => acc
  | fuel+1, n, acc =>
    if n < 10 then Nat.digitChar n :: acc
    else natCharsAux fuel (n / 10) (Nat.digitChar (n % 10) :: acc)

/-- Base-10 rendering of a natural number. -/
def natChars (n : Nat) : List Char := natCharsAux (n + 1) n []

/-- Models `fmt.Sprintf("%d", v)` on integers. -/
def intToChars (n : Int) : List Char :=
  if n < 0 then '-' :: natChars (-n).toNat else natChars n.toNat

/-- Two zero-padded base-10 digits of `k < 100`. -/
def twoDigits (k : Nat) : List Char :=
  [Nat.digitChar (k / 10), Nat.digitChar (k % 10)]

/-- Models `fmt.Sprintf("%.2f", v)` over the rational embedding of
floating values: round to two decimals, render with exactly two decimal
places, keeping the sign of the input. -/
def floatToChars2 (q : ℚ) : List Char :=
  let sign : List Char := if q < 0 then ['-'] else []
  let n : Nat := (round (|q| * 100) : Int).toNat
  sign ++ natChars (n / 100) ++ '.' :: twoDigits (n % 100)

/-- Models `strings.ReplaceAll(s, old, new)` for a one-character `old`,
which is the only form the engine uses. -/
def replaceAllChar (old : Char) (new : List Char) : List Char → List Char
  | [] => []
  | c :: rest => (if c = old then new else [c]) ++ replaceAllChar old new rest

/-- Lexicographic order on strings (byte-wise in Go, code-point-wise here),
as used by `fmt`'s sorted printing of map keys. -/
def lexLe : List Char → List Char → Bool
  | [], _ => true
  | _ :: _, [] => false
  | a :: as, b :: bs => if a = b then lexLe as bs else decide (a < b)

/-- `sepConcat sep parts` concatenates `parts` in order inserting `sep`
between consecutive parts: `parts.length - 1` separators, none trailing. -/
def sepConcat (sep : List Char) : List (List Char) → List Char
  | [] => []
  | [p] => p
  | p :: p2 :: rest => p ++ sep ++ sepConcat sep (p2 :: rest)

/-- Embedding of Go's dynamic values (`interface{}`) as they occur in the
template engine: strings, integers, floating values, booleans, nil,
string-keyed mappings and sequences. -/
inductive Value where
  | str (s : List Char)
  | int (n : Int)
  | float (q : ℚ)
  | bool (b : Bool)
  | null
  | map (m : List (List Char × Value))
  | seq (l : List Value)

/-- A variable context: the embedding of `map[string]interface{}` used for
`TemplateProcessor.variables`.  Earlier entries are later writes. -/
abbrev Ctx := List (List Char × Value)

/-- Map read on the association-list embedding: first match wins. -/
def lookupCtx : Ctx → List Char → Option Value
  | [], _ => none
  | (k, v) :: rest, key => if k = key then some v else lookupCtx rest key

/-- Models `strings.Split(path, ".")`. -/
def splitDot : List Char → List (List Char)
  | [] => [[]]
  | c :: rest =>
    if c = '.' then [] :: splitDot rest
    else
      match splitDot rest with
      | s :: ss => (c :: s) :: ss
      | [] => [[c]]

/-- The traversal loop of `getNestedValue`: walk the dotted path through
mapping levels; a missing key or a non-mapping intermediate value yields
the empty string (never an error). -/
def getNested : Value → List (List Char) → Value
  | current, [] => current
  | Value.map m, part :: rest =>
    (match lookupCtx m part with
     | some v => getNested v rest
     | none => Value.str [])
  | _, _ :: _ => Value.str []

/-- `TemplateProcessor.getNestedValue`: resolve a potentially dotted path
against the processor's variables. -/
def getNestedValue (vars : Ctx) (path : List Char) : Value :=
  getNested (Value.map vars) (splitDot path)

/-- The JSON-control-character escaping performed by `valueToString`:
the source's five sequential `strings.ReplaceAll` calls, in their order
(backslash, double quote, newline, carriage return, tab). -/
def escapeJSON (s : List Char) : List Char :=
  replaceAllChar '\t' ['\\', 't']
    (replaceAllChar '\r' ['\\', 'r']
      (replaceAllChar '\n' ['\\', 'n']
        (replaceAllChar '"' ['\\', '"']
          (replaceAllChar '\\' ['\\', '\\'] s))))

/-- Insertion step of the key-sorted printing of mappings. -/
def insertByKey (p : List Char × List Char) :
    List (List Char × List Char) → List (List Char × List Char)
  | [] => [p]
  | q :: rest => if lexLe p.1 q.1 then p :: q :: rest else q :: insertByKey p rest

/-- Sort key/text pairs by key, modelling `fmt`'s sorted map printing. -/
def sortByKeyStr : List (List Char × List Char) → List (List Char × List Char)
  | [] => []
  | p :: rest => insertByKey p (sortByKeyStr rest)

/-- Models `fmt.Sprintf("%v", v)` for the values reaching the `default`
branch of `valueToString` (mappings and sequences; their nested parts are
rendered recursively, with map keys sorted). -/
def genericFormat : Value → List Char
  | Value.str s => s
  | Value.int n => intToChars n
  | Value.float q => floatToChars2 q
  | Value.bool b => if b then "true".toList else "false".toList
  | Value.null => "<nil>".toList
  | Value.seq l =>
    '[' :: sepConcat [' '] (l.attach.map fun x => genericFormat x.1) ++ [']']
  | Value.map m =>
    "map[".toList ++
      sepConcat [' ']
        ((sortByKeyStr (m.attach.map fun x => (x.1.1, genericFormat x.1.2))).map
          (fun kv => kv.1 ++ ':' :: kv.2)) ++ [']']
decreasing_by
  all_goals simp_wf
  · have := List.sizeOf_lt_of_mem x.2
    omega
  · have h1 := List.sizeOf_lt_of_mem x.2
    have h2 : sizeOf x.1.2 < sizeOf x.1 := by
      obtain ⟨a, b⟩ := x.1
      simp
    omega

/-- `TemplateProcessor.valueToString`: convert a resolved value to text
for insertion into the descriptor. -/
def valueToString : Value → List Char
  | Value.str s => escapeJSON s
  | Value.int n => intToChars n
  | Value.float q => floatToChars2 q
  | Value.bool b => if b then "true".toList else "false".toList
  | Value.null => []
  | Value.map m => escapeJSON (genericFormat (Value.map m))
  | Value.seq l => escapeJSON (genericFormat (Value.seq l))

/-! ## Marker matching

The two replacement regexes of the engine have the shape
`\x7b\x7b\s*([^X]+)\s*\x7d\x7d` where the excluded class `X` is `}` for
plain substitution and `}#/` for in-loop substitution.  Since the
whitespace class is contained in the allowed class, a leftmost-first
match at a position exists exactly when the literal `{{` is followed by a
nonempty run of allowed characters and then by `}}`; the whole match is
`{{`, that run, `}}`. -/

/-- The excluded class of the plain variable regex. -/
def varExcl (c : Char) : Bool := c == '}'

/-- The excluded class of the in-loop variable regex. -/
def loopExcl (c : Char) : Bool := c == '}' || c == '#' || c == '/'

/-- Leftmost-first match of the variable-marker regex at the head of the
text: returns the whole match and the remaining text. -/
def matchVarAt (excl : Char → Bool) : List Char → Option (List Char × List Char)
  | '{' :: '{' :: rest =>
    let t := rest.takeWhile fun c => !excl c
    let r := rest.dropWhile fun c => !excl c
    (match t, r with
     | [], _ => none
     | _ :: _, '}' :: '}' :: rest2 => some ('{' :: '{' :: (t ++ ['}', '}']), rest2)
     | _, _ => none)
  | _ => none

/-- Models `Regexp.ReplaceAllStringFunc` for the variable-marker regexes:
scan left to right, replace each non-overlapping leftmost match by `f`
applied to the whole match.  The fuel starts at the text length and each
step consumes at least one character, so it never runs out. -/
def replaceAllFuncAux (excl : Char → Bool) (f : List Char → List Char) :
    Nat → List Char → List Char
  | 0, l => l
  | _+1, [] => []
  | fuel+1, c :: rest =>
    match matchVarAt excl (c :: rest) with
    | some (m, rest2) => f m ++ replaceAllFuncAux excl f fuel rest2
    | none => c :: replaceAllFuncAux excl f fuel rest

/-- See `replaceAllFuncAux`. -/
def replaceAllFunc (excl : Char → Bool) (f : List Char → List Char)
    (l : List Char) : List Char :=
  replaceAllFuncAux excl f l.length l

/-- The replacement function of `ProcessTemplate`'s second pass: take the
variable name from the whole match (strip braces, trim space), leave stray
loop markers (`#`/`/` prefixes) untouched, otherwise resolve and render. -/
def mainRepl (vars : Ctx) (m : List Char) : List Char :=
  let varName := goTrimSpace (trimCurly m)
  if varName.head? = some '#' || varName.head? = some '/' then m
  else valueToString (getNestedValue vars varName)

/-- The variable-substitution pass of `ProcessTemplate`. -/
def substVars (vars : Ctx) (l : List Char) : List Char :=
  replaceAllFunc varExcl (mainRepl vars) l

/-- The per-iteration substitution performed inside `processLoop` (regex
with excluded class `}#/`, no stray-marker check). -/
def substLoopVars (vars : Ctx) (l : List Char) : List Char :=
  replaceAllFunc loopExcl
    (fun m => valueToString (getNestedValue vars (goTrimSpace (trimCurly m)))) l

/-! ## Loop expansion -/

/-- The capture group of the loop-start regex `\x7b\x7b\s*#\s*([^\x7d]+)\s*\x7d\x7d`
within the run `t` of non-`}` characters following `#`: the greedy `\s*`
takes the leading whitespace, except that when `t` is all whitespace it
backs off one character so that the group stays nonempty. -/
def loopGroupName (t : List Char) : List Char :=
  let t2 := t.dropWhile reSpace
  if t2.isEmpty then (t.reverse.take 1).reverse else t2

/-- Leftmost-first match of the loop-start regex at the head of the text:
returns the captured collection name and the text after the match. -/
def matchLoopStartAt : List Char → Option (List Char × List Char)
  | '{' :: '{' :: rest =>
    (match rest.dropWhile reSpace with
     | '#' :: rest2 =>
       let t := rest2.takeWhile fun c => !(c == '}')
       let r := rest2.dropWhile fun c => !(c == '}')
       (match t, r with
        | [], _ => none
        | _ :: _, '}' :: '}' :: rest3 => some (loopGroupName t, rest3)
        | _, _ => none)
     | _ => none)
  | _ => none

/-- Models `loopStartRe.FindStringSubmatchIndex`: leftmost loop-start
match; returns the text before the match, the captured name and the text
after the match. -/
def findLoopStart : List Char → Option (List Char × List Char × List Char)
  | [] => none
  | c :: rest =>
    match matchLoopStartAt (c :: rest) with
    | some (name, after) => some ([], name, after)
    | none =>
      match findLoopStart rest with
      | some (pre, name, after) => some (c :: pre, name, after)
      | none => none

/-- Match a literal string at the head of the text, returning the rest. -/
def matchLit : List Char → List Char → Option (List Char)
  | [], l => some l
  | _ :: _, [] => none
  | p :: ps, c :: cs => if c = p then matchLit ps cs else none

/-- One attempt of the loop-end regex after `\x7b\x7b\s*/`: skip `k`
whitespace characters, require the quoted name, then `\s*` and `\x7d\x7d`. -/
def endAttempt (name l : List Char) (k : Nat) : Option (List Char) :=
  match matchLit name (l.drop k) with
  | some r =>
    (match r.dropWhile reSpace with
     | '}' :: '}' :: rest => some rest
     | _ => none)
  | none => none

/-- Leftmost-first backtracking over the greedy `\s*` before the quoted
name: try the longest whitespace skip first. -/
def tryEndFrom (name l : List Char) : Nat → Option (List Char)
  | 0 => endAttempt name l 0
  | k+1 =>
    match endAttempt name l (k+1) with
    | some rest => some rest
    | none => tryEndFrom name l k

/-- Leftmost-first match of the loop-end regex
`\x7b\x7b\s*/\s*NAME\s*\x7d\x7d` (NAME quoted) at the head of the text. -/
def matchLoopEndAt (name : List Char) : List Char → Option (List Char)
  | '{' :: '{' :: rest =>
    (match rest.dropWhile reSpace with
     | '/' :: afterSlash =>
       tryEndFrom name afterSlash (afterSlash.takeWhile reSpace).length
     | _ => none)
  | _ => none

/-- Models `endRe.FindStringIndex` on the text after the start marker:
returns the loop body (text before the end marker) and the text after the
end marker. -/
def findLoopEnd (name : List Char) : List Char → Option (List Char × List Char)
  | [] => none
  | c :: rest =>
    match matchLoopEndAt name (c :: rest) with
    | some after => some ([], after)
    | none =>
      match findLoopEnd name rest with
      | some (body, after) => some (c :: body, after)
      | none => none

/-- The per-iteration variable context built by `processLoop`: copy the
processor's variables, merge the item's own fields if it is a mapping
(binding the item under the key `item` otherwise), then inject the
reserved iteration counters `index` (0-based) and `index1` (1-based).
Later writes are stored in front. -/
def iterCtx (vars : Ctx) (item : Value) (i : Nat) : Ctx :=
  let withItem : Ctx :=
    match item with
    | Value.map m => m ++ vars
    | _ => ("item".toList, item) :: vars
  ("index1".toList, Value.int (i + 1)) :: ("index".toList, Value.int i) :: withItem

/-- The iteration loop of `processLoop` over the resolved sequence `arr`,
with `i` the current index and `n` the length of the whole sequence: emit
the substituted body, then a comma when this is not the last iteration
and the body is non-blank. -/
def processLoopIter (vars : Ctx) (body : List Char) (n : Nat) :
    List Value → Nat → List Char
  | [], _ => []
  | item :: rest, i =>
    substLoopVars (iterCtx vars item i) body
      ++ (if decide (i < n - 1) && !(goTrimSpace body).isEmpty then [','] else [])
      ++ processLoopIter vars body n rest (i + 1)

/-- `TemplateProcessor.processLoop`: expand one loop.  The two Go slice
cases (`[]interface{}` and `[]map[string]interface{}`) run the same
iteration and are both embedded by `Value.seq`; any non-sequence value
yields empty text. -/
def processLoop (vars : Ctx) (arrayName loopContent : List Char) : List Char :=
  match getNestedValue vars arrayName with
  | Value.seq arr => processLoopIter vars loopContent arr.length arr 0
  | _ => []

/-- `TemplateProcessor.processLoops`: repeatedly find the first loop-start
marker; if its end marker is missing, continue on the text after the start
marker (discarding everything before it, as the source does); otherwise
replace the whole loop region by its expansion and rescan.  The Go loop is
unbounded (and need not terminate on adversarial inputs); the fuel makes
the recursion well-founded, with exhaustion returning the text as is. -/
def processLoops (vars : Ctx) : Nat → List Char → List Char
  | 0, content => content
  | fuel+1, content =>
    match findLoopStart content with
    | none => content
    | some (pre, name, afterStart) =>
      match findLoopEnd name afterStart with
      | none => processLoops vars fuel afterStart
      | some (body, afterEnd) =>
        processLoops vars fuel (pre ++ processLoop vars name body ++ afterEnd)

/-- `TemplateProcessor.ProcessTemplate`: loop expansion followed by the
variable-substitution pass. -/
def ProcessTemplate (vars : Ctx) (fuel : Nat) (content : List Char) : List Char :=
  substVars vars (processLoops vars fuel content)

/-! ## Spacing model -/

/-- Resolved four-sided spacing. -/
structure Spacing where
  top : ℚ
  right : ℚ
  bottom : ℚ
  left : ℚ
  deriving DecidableEq

/-- `parseSpacing`: resolve a raw shorthand array into four-sided spacing.
The cases mirror the source's if chain on the array length: 0, 1
(all sides), 2 (vertical, horizontal), ≥ 4 (top, right, bottom, left),
and the remaining length 3 (top, horizontal, bottom). -/
def parseSpacing : List ℚ → Spacing
  | [] => ⟨0, 0, 0, 0⟩
  | [a] => ⟨a, a, a, a⟩
  | [a, b] => ⟨a, b, a, b⟩
  | [a, b, c] => ⟨a, b, c, b⟩
  | a :: b :: c :: d :: _ => ⟨a, b, c, d⟩

/-! ## Drawing backend and layout state -/

/-- Value of one hexadecimal digit; non-hex characters give 0 (modelling
`fmt.Sscanf`'s behaviour only on well-formed colour strings). -/
def hexVal (c : Char) : Int :=
  if '0' ≤ c ∧ c ≤ '9' then (c.toNat : Int) - 48
  else if 'a' ≤ c ∧ c ≤ 'f' then (c.toNat : Int) - 87
  else if 'A' ≤ c ∧ c ≤ 'F' then (c.toNat : Int) - 55
  else 0

/-- `hexToRGB`: parse `#rgb` or `#rrggbb` (hash optional); the empty
string and strings shorter than six non-hash characters (other than the
three-character form) give black. -/
def hexToRGB (hex : List Char) : Int × Int × Int :=
  match (match hex with
         | '#' :: h => h
         | h => h) with
  | [a, b, c] => (hexVal a * 17, hexVal b * 17, hexVal c * 17)
  | a :: b :: c :: d :: e :: f :: _ =>
    (hexVal a * 16 + hexVal b, hexVal c * 16 + hexVal d, hexVal e * 16 + hexVal f)
  | _ => (0, 0, 0)

/-- The `Style` struct.  Go zero values stand for absent fields. -/
structure Style where
  font : List Char := []
  size : ℚ := 0
  bold : Bool := false
  italic : Bool := false
  color : List Char := []
  bgColor : List Char := []
  align : List Char := []
  border : List Char := []
  fill : Bool := false
  width : ℚ := 0
  height : ℚ := 0
  margin : List ℚ := []
  padding : List ℚ := []
  deriving DecidableEq

/-- Modelled from the spec: the drawing-backend primitives consumed by the
layout engine (set-font, set-text-color, set-fill-color, draw-cell), as
listed in the external-interface capability surface.  The backend itself
is an external collaborator; these constructors record the calls. -/
inductive DrawOp where
  | setFont (family : List Char) (style : List Char) (size : ℚ)
  | setTextColor (r g b : Int)
  | setFillColor (r g b : Int)
  | cell (x y w h : ℚ) (txt : List Char) (border : List Char) (ln : Nat)
      (align : List Char) (fill : Bool)
  deriving DecidableEq

/-- The layout engine's mutable state: the drawing cursor plus the trace
of backend calls issued so far. -/
structure PDFState where
  x : ℚ
  y : ℚ
  ops : List DrawOp
  deriving DecidableEq

/-- Record a backend call without moving the cursor. -/
def emit (op : DrawOp) (s : PDFState) : PDFState :=
  { s with ops := s.ops ++ [op] }

/-- The backend's `SetXY`. -/
def setXY (a b : ℚ) (s : PDFState) : PDFState :=
  { s with x := a, y := b }

/-- Modelled from the spec: the backend's `CellFormat` (draw-cell): draw at
the cursor and, with newline flag 0 (the only flag the table code uses),
advance the cursor to the right by the cell width. -/
def cellFormat (w h : ℚ) (txt border : List Char) (ln : Nat) (align : List Char)
    (fill : Bool) (s : PDFState) : PDFState :=
  if ln = 0 then
    { x := s.x + w, y := s.y,
      ops := s.ops ++ [DrawOp.cell s.x s.y w h txt border ln align fill] }
  else
    { x := s.x, y := s.y + h,
      ops := s.ops ++ [DrawOp.cell s.x s.y w h txt border ln align fill] }

/-- `PDFBuilder.applyStyle`: set font (family, bold/italic flags, size,
default size 10), text colour (black unless a colour is set) and, when a
background colour is set, the fill colour. -/
def applyStyle (defaultFont : List Char) : Option Style → PDFState → PDFState
  | none, s => emit (DrawOp.setTextColor 0 0 0) (emit (DrawOp.setFont defaultFont [] 10) s)
  | some st, s =>
    let font := if st.font ≠ [] then st.font else defaultFont
    let fontStyle := (if st.bold then ['B'] else []) ++ (if st.italic then ['I'] else [])
    let size : ℚ := if st.size > 0 then st.size else 10
    let s1 := emit (DrawOp.setFont font fontStyle size) s
    let s2 :=
      if st.color ≠ [] then
        emit (DrawOp.setTextColor (hexToRGB st.color).1 (hexToRGB st.color).2.1
          (hexToRGB st.color).2.2) s1
      else emit (DrawOp.setTextColor 0 0 0) s1
    if st.bgColor ≠ [] then
      emit (DrawOp.setFillColor (hexToRGB st.bgColor).1 (hexToRGB st.bgColor).2.1
        (hexToRGB st.bgColor).2.2) s2
    else s2

/-! ## Tables -/

/-- The `TableColumn` struct. -/
structure TableColumn where
  header : List Char
  width : ℚ
  align : List Char := []
  deriving DecidableEq

/-- The `TableRow` struct. -/
structure TableRow where
  cells : List (List Char)
  style : Option Style := none
  deriving DecidableEq

/-- The dynamic `Rows` field of a table element: a typed row list (either
`[]TableRow` directly or the decoded `[]interface{}` form), a raw string
(the loop-template form), or anything else. -/
inductive RowsVal where
  | rows (l : List TableRow)
  | raw (s : List Char)
  | other
  deriving DecidableEq

/-- The table-specific part of an `Element`. -/
structure TableElement where
  style : Option Style := none
  columns : List TableColumn := []
  rowsVal : RowsVal := RowsVal.other
  deriving DecidableEq

/-- Cell alignment letter from a column's or style's align string. -/
def colAlignCode (a : List Char) : List Char :=
  if a = "center".toList then ['C'] else if a = "right".toList then ['R'] else ['L']

/-- Total width of the declared columns. -/
def sumWidths (cols : List TableColumn) : ℚ :=
  (cols.map TableColumn.width).sum

/-- The header loop of `renderTable`: one cell per column at fixed height
8, with the table style's fill flag, and border "1" unless the table
style overrides it. -/
def renderTableHeader (style : Option Style) : List TableColumn → PDFState → PDFState
  | [], s => s
  | col :: rest, s =>
    let align := colAlignCode col.align
    let fill := match style with
      | some st => st.fill
      | none => false
    let border : List Char := match style with
      | some st => if st.border ≠ [] then st.border else ['1']
      | none => ['1']
    renderTableHeader style rest (cellFormat col.width 8 col.header border 0 align fill s)

/-- The cell loop of one data row: cells beyond the declared column count
are dropped; every data cell is drawn with its column's width and
alignment, height 8, border "1" and fill disabled. -/
def renderTableRowCells : List TableColumn → List (List Char) → PDFState → PDFState
  | _, [], s => s
  | [], _ :: _, s => s
  | col :: cs, cell :: rest, s =>
    renderTableRowCells cs rest
      (cellFormat col.width 8 cell ['1'] 0 (colAlignCode col.align) false s)

/-- The data-row loop of `renderTable`: per row, apply the row's own style
(or the default font and black text), draw the cells, then return the
cursor to the table's start X one row (8 units) further down. -/
def renderTableRows (defaultFont : List Char) (startX : ℚ) (cols : List TableColumn) :
    List TableRow → PDFState → PDFState
  | [], s => s
  | row :: rest, s =>
    let s1 := match row.style with
      | some st => applyStyle defaultFont (some st) s
      | none => emit (DrawOp.setTextColor 0 0 0) (emit (DrawOp.setFont defaultFont [] 10) s)
    let s2 := renderTableRowCells cols row.cells s1
    let s3 := setXY startX (s2.y + 8) s2
    renderTableRows defaultFont startX cols rest s3

/-- The table-level alignment letter of `renderTable`: `L` unless the
table style's align string is `center` or `right`. -/
def tableAlignCode (style : Option Style) : List Char :=
  match style with
  | some st =>
    if st.align = "center".toList then ['C']
    else if st.align = "right".toList then ['R']
    else ['L']
  | none => ['L']

/-- The start X of `renderTable`: the left page margin for left alignment,
margin + (available − total)/2 for center, margin + (available − total)
for right. -/
def tableStartX (style : Option Style) (marginLeft availableWidth totalWidth : ℚ) : ℚ :=
  if tableAlignCode style = ['C'] then marginLeft + (availableWidth - totalWidth) / 2
  else if tableAlignCode style = ['R'] then marginLeft + (availableWidth - totalWidth)
  else marginLeft

/-- `PDFBuilder.renderTable`: no-op without columns; compute the start X
from the table-level alignment and the page geometry, move the cursor
there, then (for typed, nonempty rows) apply the table style, draw the
header row, step one row down and draw the data rows.  String-valued rows
(the loop-template form) and unrecognized row values return after the
cursor repositioning, as in the source. -/
def renderTable (defaultFont : List Char) (marginLeft marginRight pageWidth : ℚ)
    (el : TableElement) (s : PDFState) : PDFState :=
  if el.columns.isEmpty then s
  else
    let totalWidth := sumWidths el.columns
    let availableWidth := pageWidth - marginLeft - marginRight
    let startX : ℚ := tableStartX el.style marginLeft availableWidth totalWidth
    let s1 := setXY startX s.y s
    match el.rowsVal with
    | RowsVal.raw _ => s1
    | RowsVal.other => s1
    | RowsVal.rows rows =>
      if rows.isEmpty then s1
      else
        let s2 := match el.style with
          | some st => applyStyle defaultFont (some st) s1
          | none => s1
        let s3 := renderTableHeader el.style el.columns s2
        let s4 := setXY startX (s3.y + 8) s3
        renderTableRows defaultFont startX el.columns rows s4

/-! ## Grids

The grid code dispatches each child to `renderElementInWidth`, whose
effect on the state is realized by the external drawing backend; the
theorems quantify over that effect.  `renderGridRow` embeds the body of
the per-row loop of `renderGrid` for one batch of children. -/

/-- Pass 1 of a grid row: for each child, place the cursor at its column
position on the row's start Y, render it once to measure the vertical
displacement, track the running maximum, and restore the cursor. -/
def gridMeasure {α : Type} (render : α → ℚ → PDFState → PDFState)
    (marginLeft columnWidth startY : ℚ) :
    List α → Nat → ℚ → PDFState → ℚ × PDFState
  | [], _, maxHeight, s => (maxHeight, s)
  | e :: rest, col, maxHeight, s =>
    let x := marginLeft + (col : ℚ) * columnWidth
    let s1 := setXY x startY s
    let beforeY := s1.y
    let savedX := s1.x
    let savedY := s1.y
    let s2 := render e (columnWidth - 2) s1
    let height := s2.y - beforeY
    let maxHeight2 := if height > maxHeight then height else maxHeight
    let s3 := setXY savedX savedY s2
    gridMeasure render marginLeft columnWidth startY rest (col + 1) maxHeight2 s3

/-- Pass 2 of a grid row: render every child of the batch at its column
position on the row's start Y. -/
def gridCommit {α : Type} (render : α → ℚ → PDFState → PDFState)
    (marginLeft columnWidth startY : ℚ) :
    List α → Nat → PDFState → PDFState
  | [], _, s => s
  | e :: rest, col, s =>
    let x := marginLeft + (col : ℚ) * columnWidth
    let s1 := setXY x startY s
    let s2 := render e (columnWidth - 2) s1
    gridCommit render marginLeft columnWidth startY rest (col + 1) s2

/-- One iteration of `renderGrid`'s outer loop (one visual row): measure,
commit, then advance the cursor to the left page margin at the row's start
Y plus the measured maximum height plus the fixed 2-unit gap. -/
def renderGridRow {α : Type} (render : α → ℚ → PDFState → PDFState)
    (marginLeft columnWidth : ℚ) (rowChildren : List α) (s : PDFState) : PDFState :=
  let startY := s.y
  let m := gridMeasure render marginLeft columnWidth startY rowChildren 0 0 s
  let s2 := gridCommit render marginLeft columnWidth startY rowChildren 0 m.2
  setXY marginLeft (startY + m.1 + 2) s2

/-- The outer loop of `renderGrid`: process the children in batches of
`gcPred + 1` (the positive grid column count). -/
def renderGridLoop {α : Type} (render : α → ℚ → PDFState → PDFState)
    (marginLeft columnWidth : ℚ) (gcPred : Nat) :
    List α → PDFState → PDFState
  | [], s => s
  | c :: rest, s =>
    renderGridLoop render marginLeft columnWidth gcPred (rest.drop gcPred)
      (renderGridRow render marginLeft columnWidth (c :: rest.take gcPred) s)
termination_by l => l.length
decreasing_by
  simp only [List.length_cons, List.length_drop]
  omega

/-- `PDFBuilder.renderGrid`: no-op for a non-positive column count or no
children; otherwise divide the available width evenly and process the
children in row batches. -/
def renderGrid {α : Type} (render : α → ℚ → PDFState → PDFState)
    (marginLeft marginRight pageWidth : ℚ) (gridColumns : Int)
    (children : List α) (s : PDFState) : PDFState :=
  if gridColumns ≤ 0 || children.isEmpty then s
  else
    let availableWidth := pageWidth - marginLeft - marginRight
    let columnWidth := availableWidth / (gridColumns : ℚ)
    renderGridLoop render marginLeft columnWidth (gridColumns.toNat - 1) children s


/-! ## Claim-side characterizations -/

/-- Claim-side restatement of the spacing rule table, following the
specification's words: length 0 gives all sides zero; length 1 gives all
four sides value 0; length 2 gives top=bottom=value 0 and
left=right=value 1; length 3 gives top=value 0, left=right=value 1,
bottom=value 2; length at least 4 gives top, right, bottom, left from
the first four values. -/
def spacingSpecTable (values : List ℚ) : Spacing :=
  if values.length = 0 then ⟨0, 0, 0, 0⟩
  else if values.length = 1 then
    ⟨values.getD 0 0, values.getD 0 0, values.getD 0 0, values.getD 0 0⟩
  else if values.length = 2 then
    ⟨values.getD 0 0, values.getD 1 0, values.getD 0 0, values.getD 1 0⟩
  else if values.length = 3 then
    ⟨values.getD 0 0, values.getD 1 0, values.getD 2 0, values.getD 1 0⟩
  else
    ⟨values.getD 0 0, values.getD 1 0, values.getD 2 0, values.getD 3 0⟩

/-- Claim C2: `parseSpacing` resolves a raw spacing array exactly by the
length-indexed rule table (all-zero, all-sides, vertical/horizontal,
top/horizontal/bottom, and top/right/bottom/left). -/
theorem c2_parse_spacing_table (values : List ℚ) :
    parseSpacing values = spacingSpecTable values := by
  match values with
  | [] => rfl
  | [_] => rfl
  | [_, _] => rfl
  | [_, _, _] => rfl
  | _ :: _ :: _ :: _ :: _ => rfl

/-- Claim C1 (behaviour of the code at the failing input): for the text
`A{{#x}}B`, whose loop-start marker has no matching end marker, template
resolution returns only `B` — it drops both the start marker and all the
text before it, instead of preserving the surrounding text `AB`. -/
theorem c1_unmatched_loop_start_drops_preceding_text :
    ProcessTemplate [] 2 "A\x7b\x7b#x\x7d\x7dB".toList = "B".toList ∧
      "B".toList ≠ "AB".toList := by
  exact ⟨rfl, by decide⟩

/-- Claim C9: in every per-iteration loop context, the reserved keys
`index` (0-based) and `index1` (1-based) are injected after the item's
fields are merged, so looking them up always yields the iteration
counters — even when the item is a mapping carrying fields of the same
names, whose values are therefore never visible inside the loop body. -/
theorem c9_iteration_counters_shadow_item_fields (vars : Ctx) (item : Value) (i : Nat) :
    getNestedValue (iterCtx vars item i) "index".toList = Value.int i ∧
      getNestedValue (iterCtx vars item i) "index1".toList = Value.int (i + 1) :=
  ⟨rfl, rfl⟩

/-- Claim-side per-character JSON-control-character escaping: backslash,
double quote, newline, carriage return and tab are each turned into a
backslash-prefixed escape; every other character passes through. -/
def escChar (c : Char) : List Char :=
  if c = '\\' then ['\\', '\\']
  else if c = '"' then ['\\', '"']
  else if c = '\n' then ['\\', 'n']
  else if c = '\r' then ['\\', 'r']
  else if c = '\t' then ['\\', 't']
  else [c]

/-- Claim-side escaping of a whole string, character by character. -/
def escapeSpec : List Char → List Char
  | [] => []
  | c :: rest => escChar c ++ escapeSpec rest

theorem replaceAllChar_append (old : Char) (new l1 l2 : List Char) :
    replaceAllChar old new (l1 ++ l2)
      = replaceAllChar old new l1 ++ replaceAllChar old new l2 := by
  induction l1 with
  | nil => rfl
  | cons c rest ih => simp [replaceAllChar, ih]

theorem escape_head (c : Char) :
    replaceAllChar '\t' ['\\', 't']
      (replaceAllChar '\r' ['\\', 'r']
        (replaceAllChar '\n' ['\\', 'n']
          (replaceAllChar '"' ['\\', '"']
            (if c = '\\' then ['\\', '\\'] else [c])))) = escChar c := by
  by_cases h1 : c = '\\'
  · subst h1; rfl
  by_cases h2 : c = '"'
  · subst h2; rfl
  by_cases h3 : c = '\n'
  · subst h3; rfl
  by_cases h4 : c = '\r'
  · subst h4; rfl
  by_cases h5 : c = '\t'
  · subst h5; rfl
  simp [replaceAllChar, escChar, h1, h2, h3, h4, h5]

theorem escapeJSON_cons (c : Char) (rest : List Char) :
    escapeJSON (c :: rest) = escChar c ++ escapeJSON rest := by
  unfold escapeJSON
  rw [show replaceAllChar '\\' ['\\', '\\'] (c :: rest)
        = (if c = '\\' then ['\\', '\\'] else [c])
            ++ replaceAllChar '\\' ['\\', '\\'] rest from rfl,
    replaceAllChar_append, replaceAllChar_append, replaceAllChar_append,
    replaceAllChar_append, escape_head]

/-- The five sequential replacements of the source equal the claim-side
single-pass per-character escaping. -/
theorem escapeJSON_eq_escapeSpec (s : List Char) : escapeJSON s = escapeSpec s := by
  induction s with
  | nil => rfl
  | cons c rest ih => rw [escapeJSON_cons, ih]; rfl

theorem natCharsAux_all (P : Char → Prop) (hP : ∀ m, m < 10 → P (Nat.digitChar m)) :
    ∀ fuel n acc, (∀ c ∈ acc, P c) → ∀ c ∈ natCharsAux fuel n acc, P c := by
  intro fuel
  induction fuel with
  | zero => intro n acc hacc; exact hacc
  | succ k ih =>
    intro n acc hacc c hc
    unfold natCharsAux at hc
    by_cases h : n < 10
    · rw [if_pos h] at hc
      rw [List.mem_cons] at hc
      rcases hc with h1 | h2
      · exact h1 ▸ hP n h
      · exact hacc c h2
    · rw [if_neg h] at hc
      refine ih (n / 10) _ ?_ c hc
      intro d hd
      rw [List.mem_cons] at hd
      rcases hd with h1 | h2
      · exact h1 ▸ hP (n % 10) (Nat.mod_lt n (by omega))
      · exact hacc d h2

theorem natChars_isDigit (n : Nat) : ∀ c ∈ natChars n, c.isDigit = true :=
  natCharsAux_all (fun c => c.isDigit = true) (by decide) (n + 1) n []
    (by intro c hc; cases hc)

theorem dot_not_mem_natChars (n : Nat) : '.' ∉ natChars n := by
  intro h
  have := natChars_isDigit n '.' h
  exact absurd this (by decide)

/-- Claim C8: the textual form of a resolved value is: strings with
JSON-control-character escaping (backslash, double quote, newline,
carriage return, tab each replaced by a backslash-prefixed escape);
integers without decimals; floating values with exactly two decimal
places (a dot followed by exactly two digits, with no other dot);
booleans as the literal words true/false; nil as the empty string; any
other value stringified generically then escaped identically to
strings. -/
theorem c8_value_to_string_format :
    (∀ s, valueToString (Value.str s) = escapeSpec s) ∧
      (∀ n : Int, '.' ∉ valueToString (Value.int n)) ∧
      (∀ q : ℚ, ∃ pre d1 d2, valueToString (Value.float q) = pre ++ ['.', d1, d2] ∧
        d1.isDigit = true ∧ d2.isDigit = true ∧ '.' ∉ pre) ∧
      valueToString (Value.bool true) = "true".toList ∧
      valueToString (Value.bool false) = "false".toList ∧
      valueToString Value.null = [] ∧
      (∀ m, valueToString (Value.map m) = escapeSpec (genericFormat (Value.map m))) ∧
      (∀ l, valueToString (Value.seq l) = escapeSpec (genericFormat (Value.seq l))) := by
  refine ⟨fun s => escapeJSON_eq_escapeSpec s, ?_, ?_, rfl, rfl, rfl,
    fun m => escapeJSON_eq_escapeSpec _, fun l => escapeJSON_eq_escapeSpec _⟩
  · intro n h
    simp only [valueToString, intToChars] at h
    by_cases hn : n < 0
    · rw [if_pos hn] at h
      rw [List.mem_cons] at h
      rcases h with h1 | h2
      · exact absurd h1 (by decide)
      · exact dot_not_mem_natChars _ h2
    · rw [if_neg hn] at h
      exact dot_not_mem_natChars _ h
  · intro q
    refine ⟨(if q < 0 then ['-'] else []) ++ natChars ((round (|q| * 100) : Int).toNat / 100),
      Nat.digitChar ((round (|q| * 100) : Int).toNat % 100 / 10),
      Nat.digitChar ((round (|q| * 100) : Int).toNat % 100 % 10), ?_, ?_, ?_, ?_⟩
    · show floatToChars2 q = _
      unfold floatToChars2 twoDigits
      simp [List.append_assoc]
    · have h10 : (round (|q| * 100) : Int).toNat % 100 / 10 < 10 := by omega
      revert h10
      generalize (round (|q| * 100) : Int).toNat % 100 / 10 = k
      revert k
      decide
    · have h10 : (round (|q| * 100) : Int).toNat % 100 % 10 < 10 := by omega
      revert h10
      generalize (round (|q| * 100) : Int).toNat % 100 % 10 = k
      revert k
      decide
    · intro h
      rcases List.mem_append.mp h with h1 | h2
      · by_cases hq : q < 0
        · rw [if_pos hq] at h1
          simp at h1
        · rw [if_neg hq] at h1
          cases h1
      · exact dot_not_mem_natChars _ h2

theorem c8_value_to_string_format_witness :
    valueToString (Value.str ['a', '\n']) = escapeSpec ['a', '\n'] ∧
      '.' ∉ valueToString (Value.int 42) :=
  ⟨c8_value_to_string_format.1 ['a', '\n'], c8_value_to_string_format.2.1 42⟩

/-- Claim-side: the per-iteration variable-substituted bodies of a loop,
in order; the iteration context of the item at index `i` is `iterCtx`. -/
def loopParts (vars : Ctx) (body : List Char) : List Value → Nat → List (List Char)
  | [], _ => []
  | item :: rest, i =>
    substLoopVars (iterCtx vars item i) body :: loopParts vars body rest (i + 1)

theorem loopParts_length (vars : Ctx) (body : List Char) :
    ∀ (arr : List Value) (i : Nat), (loopParts vars body arr i).length = arr.length := by
  intro arr
  induction arr with
  | nil => intro i; rfl
  | cons item rest ih => intro i; simp [loopParts, ih]

theorem processLoopIter_cons (vars : Ctx) (body : List Char) (n : Nat) (item : Value)
    (rest : List Value) (i : Nat) :
    processLoopIter vars body n (item :: rest) i =
      substLoopVars (iterCtx vars item i) body
        ++ (if decide (i < n - 1) && !(goTrimSpace body).isEmpty then [','] else [])
        ++ processLoopIter vars body n rest (i + 1) := rfl

theorem sepConcat_cons₂ (sep p p2 : List Char) (rest : List (List Char)) :
    sepConcat sep (p :: p2 :: rest) = p ++ sep ++ sepConcat sep (p2 :: rest) := rfl

theorem loopParts_cons (vars : Ctx) (body : List Char) (item : Value) (rest : List Value)
    (i : Nat) :
    loopParts vars body (item :: rest) i =
      substLoopVars (iterCtx vars item i) body :: loopParts vars body rest (i + 1) := rfl

theorem processLoopIter_nonblank (vars : Ctx) (body : List Char)
    (hb : (goTrimSpace body).isEmpty = false) :
    ∀ (arr : List Value) (i n : Nat), n = i + arr.length →
      processLoopIter vars body n arr i = sepConcat [','] (loopParts vars body arr i) := by
  intro arr
  induction arr with
  | nil => intro i n _; rfl
  | cons item rest ih =>
    intro i n hn
    cases rest with
    | nil =>
      have hlt : (i < n - 1) = False := by
        simp only [List.length_cons, List.length_nil] at hn
        simp
        omega
      rw [processLoopIter_cons]
      simp [hlt, loopParts, sepConcat, processLoopIter]
    | cons p2 r2 =>
      have hc : (decide (i < n - 1) && !(goTrimSpace body).isEmpty) = true := by
        rw [hb]
        simp only [List.length_cons] at hn
        simp
        omega
      have ihx := ih (i + 1) n (by simp only [List.length_cons] at hn ⊢; omega)
      rw [processLoopIter_cons, hc, loopParts_cons vars body item (p2 :: r2) i,
        loopParts_cons vars body p2 r2 (i + 1), sepConcat_cons₂,
        ← loopParts_cons vars body p2 r2 (i + 1), ← ihx]
      simp [List.append_assoc]

theorem processLoopIter_blank (vars : Ctx) (body : List Char)
    (hb : (goTrimSpace body).isEmpty = true) :
    ∀ (arr : List Value) (i n : Nat),
      processLoopIter vars body n arr i = sepConcat [] (loopParts vars body arr i) := by
  intro arr
  induction arr with
  | nil => intro i n; rfl
  | cons item rest ih =>
    intro i n
    have hc : (decide (i < n - 1) && !(goTrimSpace body).isEmpty) = false := by
      rw [hb]
      simp
    cases rest with
    | nil =>
      rw [processLoopIter_cons, hc]
      simp [loopParts, sepConcat, processLoopIter]
    | cons p2 r2 =>
      rw [processLoopIter_cons, hc, loopParts_cons vars body item (p2 :: r2) i,
        loopParts_cons vars body p2 r2 (i + 1), sepConcat_cons₂,
        ← loopParts_cons vars body p2 r2 (i + 1), ← ih (i + 1) n]
      simp

/-- Claim C3: expanding a loop bound to a sequence of N items yields the N
per-iteration variable-substituted bodies concatenated in order, with a
literal comma between consecutive iterations exactly when the body is
non-blank (so N−1 separators and no trailing comma), and nothing between
them for a blank body. -/
theorem c3_loop_expansion (vars : Ctx) (name body : List Char) (items : List Value)
    (h : getNestedValue vars name = Value.seq items) :
    processLoop vars name body =
      (if (goTrimSpace body).isEmpty then sepConcat [] (loopParts vars body items 0)
       else sepConcat [','] (loopParts vars body items 0)) ∧
      (loopParts vars body items 0).length = items.length := by
  constructor
  · unfold processLoop
    rw [h]
    by_cases hb : (goTrimSpace body).isEmpty
    · rw [if_pos hb]
      exact processLoopIter_blank vars body hb items 0 items.length
    · rw [if_neg hb]
      exact processLoopIter_nonblank vars body (by simpa using hb) items 0 items.length
        (by omega)
  · exact loopParts_length vars body items 0

/-- The context of the witness for claim C3: `items` bound to two
one-field mappings. -/
def c3Vars : Ctx :=
  [("items".toList, Value.seq
    [Value.map [("v".toList, Value.str "a".toList)],
     Value.map [("v".toList, Value.str "b".toList)]])]

/-- The item list of the witness for claim C3. -/
def c3Items : List Value :=
  [Value.map [("v".toList, Value.str "a".toList)],
   Value.map [("v".toList, Value.str "b".toList)]]

theorem c3_loop_expansion_witness :
    getNestedValue c3Vars "items".toList = Value.seq c3Items ∧
      (processLoop c3Vars "items".toList "\x7b\x7bv\x7d\x7d".toList =
        (if (goTrimSpace "\x7b\x7bv\x7d\x7d".toList).isEmpty then
          sepConcat [] (loopParts c3Vars "\x7b\x7bv\x7d\x7d".toList c3Items 0)
         else sepConcat [','] (loopParts c3Vars "\x7b\x7bv\x7d\x7d".toList c3Items 0)) ∧
        (loopParts c3Vars "\x7b\x7bv\x7d\x7d".toList c3Items 0).length = c3Items.length) ∧
      processLoop c3Vars "items".toList "\x7b\x7bv\x7d\x7d".toList = "a,b".toList :=
  ⟨rfl, c3_loop_expansion c3Vars "items".toList "\x7b\x7bv\x7d\x7d".toList c3Items rfl, rfl⟩

/-- Claim-side: the text contains (at some position) a match of the
variable-marker regex with excluded class `excl` — i.e. a template marker
as the engine itself delimits them. -/
def hasMarker (excl : Char → Bool) : List Char → Bool
  | [] => false
  | c :: rest => (matchVarAt excl (c :: rest)).isSome || hasMarker excl rest

/-- Claim-side: the text contains a match of the loop-start regex. -/
def hasLoopMarker : List Char → Bool
  | [] => false
  | c :: rest => (matchLoopStartAt (c :: rest)).isSome || hasLoopMarker rest

theorem findLoopStart_eq_none {l : List Char} (h : hasLoopMarker l = false) :
    findLoopStart l = none := by
  induction l with
  | nil => rfl
  | cons c rest ih =>
    unfold hasLoopMarker at h
    rw [Bool.or_eq_false_iff] at h
    have h1 : matchLoopStartAt (c :: rest) = none := by
      cases hx : matchLoopStartAt (c :: rest) with
      | none => rfl
      | some v => rw [hx] at h; simp at h
    unfold findLoopStart
    rw [h1, ih h.2]

theorem replaceAllFuncAux_id (excl : Char → Bool) (f : List Char → List Char) :
    ∀ (fuel : Nat) (l : List Char), hasMarker excl l = false →
      replaceAllFuncAux excl f fuel l = l := by
  intro fuel
  induction fuel with
  | zero => intro l _; rfl
  | succ k ih =>
    intro l h
    cases l with
    | nil => rfl
    | cons c rest =>
      unfold hasMarker at h
      rw [Bool.or_eq_false_iff] at h
      have h1 : matchVarAt excl (c :: rest) = none := by
        cases hx : matchVarAt excl (c :: rest) with
        | none => rfl
        | some v => rw [hx] at h; simp at h
      unfold replaceAllFuncAux
      rw [h1, ih rest h.2]

/-- Claim C4: resolving a text that contains no template markers (no
position matches the variable-marker regex and none matches the
loop-start regex) against any context, with any amount of loop fuel,
returns the text unchanged — so resolving an already-fully-resolved
descriptor a second time is the identity. -/
theorem c4_no_markers_identity (vars : Ctx) (fuel : Nat) (content : List Char)
    (h1 : hasMarker varExcl content = false) (h2 : hasLoopMarker content = false) :
    ProcessTemplate vars fuel content = content := by
  unfold ProcessTemplate
  have hl : processLoops vars fuel content = content := by
    cases fuel with
    | zero => rfl
    | succ n =>
      unfold processLoops
      rw [findLoopStart_eq_none h2]
  rw [hl]
  unfold substVars replaceAllFunc
  exact replaceAllFuncAux_id varExcl (mainRepl vars) content.length content h1

theorem c4_no_markers_identity_witness :
    hasMarker varExcl "Hello, World!".toList = false ∧
      hasLoopMarker "Hello, World!".toList = false ∧
      ProcessTemplate [] 1 "Hello, World!".toList = "Hello, World!".toList :=
  ⟨by decide, by decide, c4_no_markers_identity [] 1 "Hello, World!".toList
    (by decide) (by decide)⟩

/-- Claim-side: the dotted-path lookup hits a missing segment or a
non-mapping intermediate value, i.e. the path resolves to Absent. -/
def pathAbsent : Value → List (List Char) → Bool
  | _, [] => false
  | Value.map m, p :: ps =>
    (match lookupCtx m p with
     | some v => pathAbsent v ps
     | none => true)
  | _, _ :: _ => true

theorem getNested_of_absent :
    ∀ (parts : List (List Char)) (v : Value), pathAbsent v parts = true →
      getNested v parts = Value.str [] := by
  intro parts
  induction parts with
  | nil => intro v h; exact absurd h (by simp [pathAbsent])
  | cons p ps ih =>
    intro v h
    cases v with
    | map m =>
      unfold pathAbsent at h
      unfold getNested
      cases hx : lookupCtx m p with
      | none => rfl
      | some w =>
        rw [hx] at h
        exact ih w h
    | str s => rfl
    | int n => rfl
    | float q => rfl
    | bool b => rfl
    | null => rfl
    | seq l => rfl

theorem takeWhile_append_all {p : Char → Bool} :
    ∀ {l1 : List Char} (l2 : List Char), (∀ c ∈ l1, p c = true) →
      (l1 ++ l2).takeWhile p = l1 ++ l2.takeWhile p := by
  intro l1
  induction l1 with
  | nil => intro l2 _; rfl
  | cons c rest ih =>
    intro l2 h
    have hc : p c = true := h c (by simp)
    simp only [List.cons_append, List.takeWhile_cons, hc, if_true]
    rw [ih l2 (fun d hd => h d (by simp [hd]))]

theorem dropWhile_append_all {p : Char → Bool} :
    ∀ {l1 : List Char} (l2 : List Char), (∀ c ∈ l1, p c = true) →
      (l1 ++ l2).dropWhile p = l2.dropWhile p := by
  intro l1
  induction l1 with
  | nil => intro l2 _; rfl
  | cons c rest ih =>
    intro l2 h
    have hc : p c = true := h c (by simp)
    simp only [List.cons_append, List.dropWhile_cons, hc, if_true]
    exact ih l2 (fun d hd => h d (by simp [hd]))

theorem dropWhile_all_false {p : Char → Bool} :
    ∀ {l : List Char}, (∀ c ∈ l, p c = false) → l.dropWhile p = l := by
  intro l h
  cases l with
  | nil => rfl
  | cons c rest =>
    have hc : p c = false := h c (by simp)
    simp [List.dropWhile_cons, hc]

theorem matchVarAt_cons (excl : Char → Bool) (rest : List Char) :
    matchVarAt excl ('{' :: '{' :: rest) =
      (let t := rest.takeWhile fun c => !excl c
       let r := rest.dropWhile fun c => !excl c
       match t, r with
       | [], _ => none
       | _ :: _, '}' :: '}' :: rest2 => some ('{' :: '{' :: (t ++ ['}', '}']), rest2)
       | _, _ => none) := rfl

/-- The variable-marker regex matches the whole text `((` ++ path ++ `))`
(braces written as characters) when the path is nonempty and brace-free. -/
theorem matchVarAt_marker {path : List Char} (h1 : path ≠ [])
    (h2 : ∀ c ∈ path, ¬ c = '{' ∧ ¬ c = '}') :
    matchVarAt varExcl ('{' :: '{' :: (path ++ ['}', '}']))
      = some ('{' :: '{' :: (path ++ ['}', '}']), []) := by
  have hall : ∀ c ∈ path, (fun c => !varExcl c) c = true := by
    intro c hc
    have := (h2 c hc).2
    simp [varExcl]
    exact this
  rw [matchVarAt_cons]
  have ht : (path ++ ['}', '}']).takeWhile (fun c => !varExcl c) = path := by
    rw [takeWhile_append_all _ hall]
    simp [varExcl]
  have hr : (path ++ ['}', '}']).dropWhile (fun c => !varExcl c) = ['}', '}'] := by
    rw [dropWhile_append_all _ hall]
    rfl
  simp only [ht, hr]
  cases path with
  | nil => exact absurd rfl h1
  | cons a rest => rfl

theorem trimCurly_marker {path : List Char}
    (h2 : ∀ c ∈ path, ¬ c = '{' ∧ ¬ c = '}') :
    trimCurly ('{' :: '{' :: (path ++ ['}', '}'])) = path := by
  have hnc : ∀ c ∈ path, curlyChar c = false := by
    intro c hc
    obtain ⟨ha, hb⟩ := h2 c hc
    simp [curlyChar]
    exact ⟨ha, hb⟩
  unfold trimCurly
  have hstep1 : ('{' :: '{' :: (path ++ ['}', '}'])).dropWhile curlyChar
      = (path ++ ['}', '}']).dropWhile curlyChar := by
    simp [List.dropWhile_cons, curlyChar]
  rw [hstep1]
  cases hp : path with
  | nil => rfl
  | cons a rest =>
    have ha : curlyChar a = false := hnc a (by simp [hp])
    rw [← hp]
    have hstep2 : (path ++ ['}', '}']).dropWhile curlyChar = path ++ ['}', '}'] := by
      rw [hp]
      simp [List.dropWhile_cons, ha]
    rw [hstep2]
    have hstep3 : (path ++ ['}', '}']).reverse = '}' :: '}' :: path.reverse := by
      simp
    rw [hstep3]
    have hstep4 : ('}' :: '}' :: path.reverse).dropWhile curlyChar
        = path.reverse.dropWhile curlyChar := by
      simp [List.dropWhile_cons, curlyChar]
    rw [hstep4, dropWhile_all_false (fun c hc => hnc c (List.mem_reverse.mp hc)),
      List.reverse_reverse]

theorem replaceAllFuncAux_nil (excl : Char → Bool) (f : List Char → List Char) :
    ∀ fuel, replaceAllFuncAux excl f fuel [] = [] := by
  intro fuel
  cases fuel with
  | zero => rfl
  | succ k => rfl

/-- Claim C5: substituting a marker whose dotted path resolves to Absent
(missing segment or non-mapping intermediate value) yields the empty
string: the whole marker text `((path))` (braces as characters) is
replaced by nothing, and no error is raised (the substitution function is
total).  The path is assumed nonempty, brace-free, trimmed, and not a
stray loop marker. -/
theorem c5_absent_path_empty_substitution (vars : Ctx) (path : List Char)
    (h1 : path ≠ []) (h2 : ∀ c ∈ path, ¬ c = '{' ∧ ¬ c = '}')
    (h3 : goTrimSpace path = path)
    (h4 : path.head? ≠ some '#') (h5 : path.head? ≠ some '/')
    (h6 : pathAbsent (Value.map vars) (splitDot path) = true) :
    substVars vars ('{' :: '{' :: (path ++ ['}', '}'])) = [] := by
  unfold substVars replaceAllFunc
  have hlen : ('{' :: '{' :: (path ++ ['}', '}'])).length = (path.length + 3) + 1 := by
    simp
  rw [hlen]
  unfold replaceAllFuncAux
  rw [matchVarAt_marker h1 h2]
  have hname : goTrimSpace (trimCurly ('{' :: '{' :: (path ++ ['}', '}']))) = path := by
    rw [trimCurly_marker h2, h3]
  unfold mainRepl
  dsimp only
  rw [hname]
  have hskip : (decide (path.head? = some '#') || decide (path.head? = some '/')) = false := by
    simp [h4, h5]
  rw [hskip]
  simp only [Bool.false_eq_true, if_false]
  rw [replaceAllFuncAux_nil, List.append_nil]
  unfold getNestedValue
  rw [getNested_of_absent (splitDot path) (Value.map vars) h6]
  rfl

theorem c5_absent_path_empty_substitution_witness :
    (['x'] : List Char) ≠ [] ∧
      (∀ c ∈ (['x'] : List Char), ¬ c = '{' ∧ ¬ c = '}') ∧
      goTrimSpace ['x'] = ['x'] ∧
      (['x'] : List Char).head? ≠ some '#' ∧
      (['x'] : List Char).head? ≠ some '/' ∧
      pathAbsent (Value.map []) (splitDot ['x']) = true ∧
      substVars [] ('{' :: '{' :: (['x'] ++ ['}', '}'])) = [] :=
  ⟨by decide, by decide, by decide, by decide, by decide, by decide,
    c5_absent_path_empty_substitution [] ['x'] (by decide) (by decide) (by decide)
      (by decide) (by decide) (by decide)⟩

/-- Lift a cursor-level rendering semantics — for each child and width, a
function from the cursor position to the new cursor position and the
backend calls issued — to a state transformer.  This captures that the
external backend's cursor effect is determined by the cursor, not by the
call trace. -/
def liftRender {α : Type} (f : α → ℚ → ℚ → ℚ → (ℚ × ℚ) × List DrawOp)
    (e : α) (w : ℚ) (s : PDFState) : PDFState :=
  ⟨(f e w s.x s.y).1.1, (f e w s.x s.y).1.2, s.ops ++ (f e w s.x s.y).2⟩

/-- Claim-side: the vertical displacements measured for a row's children,
each rendered at its own column position on the row's start Y. -/
def gridHeights {α : Type} (f : α → ℚ → ℚ → ℚ → (ℚ × ℚ) × List DrawOp)
    (marginLeft columnWidth startY : ℚ) : List α → Nat → List ℚ
  | [], _ => []
  | e :: rest, col =>
    ((f e (columnWidth - 2) (marginLeft + (col : ℚ) * columnWidth) startY).1.2 - startY)
      :: gridHeights f marginLeft columnWidth startY rest (col + 1)

theorem ite_gt_eq_max (a b : ℚ) : (if b > a then b else a) = max a b := by
  by_cases h : b > a
  · rw [if_pos h, max_eq_right (le_of_lt h)]
  · rw [if_neg h, max_eq_left (le_of_not_lt h)]

theorem gridMeasure_fst {α : Type} (f : α → ℚ → ℚ → ℚ → (ℚ × ℚ) × List DrawOp)
    (marginLeft columnWidth startY : ℚ) :
    ∀ (l : List α) (col : Nat) (acc : ℚ) (s : PDFState),
      (gridMeasure (liftRender f) marginLeft columnWidth startY l col acc s).1
        = (gridHeights f marginLeft columnWidth startY l col).foldl max acc := by
  intro l
  induction l with
  | nil => intro col acc s; rfl
  | cons e rest ih =>
    intro col acc s
    unfold gridMeasure gridHeights
    rw [ih]
    simp only [setXY, liftRender, List.foldl_cons]
    rw [ite_gt_eq_max]

/-- Claim C6: after one grid-row batch is committed, the cursor is at
X = the left page margin and Y = the row's starting Y plus the maximum of
the vertical displacements measured across the batch's children plus the
fixed 2-unit gap — independent of the individual heights of the other
children and of anything pass 2 does to the cursor. -/
theorem c6_grid_row_sync {α : Type} (f : α → ℚ → ℚ → ℚ → (ℚ × ℚ) × List DrawOp)
    (marginLeft columnWidth : ℚ) (children : List α) (s0 : PDFState) :
    (renderGridRow (liftRender f) marginLeft columnWidth children s0).x = marginLeft ∧
      (renderGridRow (liftRender f) marginLeft columnWidth children s0).y
        = s0.y + (gridHeights f marginLeft columnWidth s0.y children 0).foldl max 0 + 2 := by
  unfold renderGridRow
  constructor
  · rfl
  · show (s0.y + (gridMeasure (liftRender f) marginLeft columnWidth s0.y children 0 0 s0).1 + 2) = _
    rw [gridMeasure_fst]

/-- Claim-side: the X coordinate recorded by the first draw-cell call of a
trace, if any. -/
def firstCellX : List DrawOp → Option ℚ
  | [] => none
  | DrawOp.cell x _ _ _ _ _ _ _ _ :: _ => some x
  | _ :: rest => firstCellX rest

/-- The align string of an optional style (empty for no style). -/
def styleAlign : Option Style → List Char
  | some st => st.align
  | none => []

theorem firstCellX_append_some {l1 : List DrawOp} {x : ℚ}
    (h : firstCellX l1 = some x) (l2 : List DrawOp) :
    firstCellX (l1 ++ l2) = some x := by
  induction l1 with
  | nil => exact absurd h (by simp [firstCellX])
  | cons op rest ih =>
    cases op with
    | cell a b c d e f g i j => exact h
    | setFont a b c => exact ih h
    | setTextColor a b c => exact ih h
    | setFillColor a b c => exact ih h

theorem firstCellX_append_none {l1 : List DrawOp}
    (h : firstCellX l1 = none) (l2 : List DrawOp) :
    firstCellX (l1 ++ l2) = firstCellX l2 := by
  induction l1 with
  | nil => rfl
  | cons op rest ih =>
    cases op with
    | cell a b c d e f g i j => exact absurd h (by simp [firstCellX])
    | setFont a b c => exact ih h
    | setTextColor a b c => exact ih h
    | setFillColor a b c => exact ih h

theorem firstCellX_snoc_noncell (l : List DrawOp) (op : DrawOp)
    (hop : firstCellX [op] = none) :
    firstCellX (l ++ [op]) = firstCellX l := by
  cases h : firstCellX l with
  | none => rw [firstCellX_append_none h, hop]
  | some x => rw [firstCellX_append_some h]

theorem firstCellX_snoc_setFont (l : List DrawOp) (a b : List Char) (c : ℚ) :
    firstCellX (l ++ [DrawOp.setFont a b c]) = firstCellX l :=
  firstCellX_snoc_noncell l _ rfl

theorem firstCellX_snoc_setTextColor (l : List DrawOp) (a b c : Int) :
    firstCellX (l ++ [DrawOp.setTextColor a b c]) = firstCellX l :=
  firstCellX_snoc_noncell l _ rfl

theorem firstCellX_snoc_setFillColor (l : List DrawOp) (a b c : Int) :
    firstCellX (l ++ [DrawOp.setFillColor a b c]) = firstCellX l :=
  firstCellX_snoc_noncell l _ rfl

theorem firstCellX_applyStyle (df : List Char) (st : Option Style) (s : PDFState) :
    firstCellX (applyStyle df st s).ops = firstCellX s.ops := by
  cases st with
  | none =>
    show firstCellX ((s.ops ++ [_]) ++ [_]) = _
    rw [firstCellX_snoc_setTextColor, firstCellX_snoc_setFont]
  | some st =>
    dsimp only [applyStyle]
    split_ifs <;>
      simp only [emit, firstCellX_snoc_setFont, firstCellX_snoc_setTextColor,
        firstCellX_snoc_setFillColor]

theorem applyStyle_x (df : List Char) (st : Option Style) (s : PDFState) :
    (applyStyle df st s).x = s.x := by
  cases st with
  | none => rfl
  | some st =>
    dsimp only [applyStyle]
    split_ifs <;> rfl

theorem cellFormat_ops (w h : ℚ) (txt border : List Char) (ln : Nat)
    (align : List Char) (fill : Bool) (s : PDFState) :
    (cellFormat w h txt border ln align fill s).ops
      = s.ops ++ [DrawOp.cell s.x s.y w h txt border ln align fill] := by
  unfold cellFormat
  split_ifs <;> rfl

/-- The trace only ever grows during rendering. -/
def OpsLe (s s2 : PDFState) : Prop := ∃ δ, s2.ops = s.ops ++ δ

theorem opsLe_refl (s : PDFState) : OpsLe s s := ⟨[], by simp⟩

theorem opsLe_trans {s1 s2 s3 : PDFState} (h1 : OpsLe s1 s2) (h2 : OpsLe s2 s3) :
    OpsLe s1 s3 := by
  obtain ⟨d1, e1⟩ := h1
  obtain ⟨d2, e2⟩ := h2
  exact ⟨d1 ++ d2, by rw [e2, e1, List.append_assoc]⟩

theorem opsLe_emit (op : DrawOp) (s : PDFState) : OpsLe s (emit op s) := ⟨[op], rfl⟩

theorem opsLe_setXY (a b : ℚ) (s : PDFState) : OpsLe s (setXY a b s) := ⟨[], by simp [setXY]⟩

theorem opsLe_cellFormat (w h : ℚ) (txt border : List Char) (ln : Nat)
    (align : List Char) (fill : Bool) (s : PDFState) :
    OpsLe s (cellFormat w h txt border ln align fill s) :=
  ⟨[DrawOp.cell s.x s.y w h txt border ln align fill], cellFormat_ops w h txt border ln align fill s⟩

theorem opsLe_applyStyle (df : List Char) (st : Option Style) (s : PDFState) :
    OpsLe s (applyStyle df st s) := by
  cases st with
  | none => exact opsLe_trans (opsLe_emit _ _) (opsLe_emit _ _)
  | some st =>
    dsimp only [applyStyle]
    split_ifs <;>
      first
        | exact opsLe_trans (opsLe_trans (opsLe_emit _ _) (opsLe_emit _ _)) (opsLe_emit _ _)
        | exact opsLe_trans (opsLe_emit _ _) (opsLe_emit _ _)

theorem opsLe_renderTableHeader (st : Option Style) :
    ∀ (cols : List TableColumn) (s : PDFState), OpsLe s (renderTableHeader st cols s) := by
  intro cols
  induction cols with
  | nil => intro s; exact opsLe_refl s
  | cons col rest ih =>
    intro s
    exact opsLe_trans (opsLe_cellFormat _ _ _ _ _ _ _ _) (ih _)

theorem opsLe_renderTableRowCells :
    ∀ (cells : List (List Char)) (cols : List TableColumn) (s : PDFState),
      OpsLe s (renderTableRowCells cols cells s) := by
  intro cells
  induction cells with
  | nil => intro cols s; cases cols <;> exact opsLe_refl _
  | cons cell rest ih =>
    intro cols s
    cases cols with
    | nil => exact opsLe_refl _
    | cons col cs => exact opsLe_trans (opsLe_cellFormat _ _ _ _ _ _ _ _) (ih _ _)

theorem opsLe_renderTableRows (df : List Char) (startX : ℚ) (cols : List TableColumn) :
    ∀ (rows : List TableRow) (s : PDFState), OpsLe s (renderTableRows df startX cols rows s) := by
  intro rows
  induction rows with
  | nil => intro s; exact opsLe_refl s
  | cons row rest ih =>
    intro s
    refine opsLe_trans ?_ (ih _)
    refine opsLe_trans ?_ (opsLe_setXY _ _ _)
    refine opsLe_trans ?_ (opsLe_renderTableRowCells _ _ _)
    cases row.style with
    | some st => exact opsLe_applyStyle _ _ _
    | none => exact opsLe_trans (opsLe_emit _ _) (opsLe_emit _ _)

theorem renderTableHeader_cons (st : Option Style) (col : TableColumn)
    (rest : List TableColumn) (s : PDFState) :
    renderTableHeader st (col :: rest) s =
      renderTableHeader st rest
        (cellFormat col.width 8 col.header
          (match st with
           | some stv => if stv.border ≠ [] then stv.border else ['1']
           | none => ['1'])
          0 (colAlignCode col.align)
          (match st with
           | some stv => stv.fill
           | none => false) s) := rfl

/-- `tableStartX` written with the claim's case split on the style's
align string. -/
theorem tableStartX_formula (st : Option Style) (mL A W : ℚ) :
    tableStartX st mL A W =
      (if styleAlign st = "center".toList then mL + (A - W) / 2
       else if styleAlign st = "right".toList then mL + (A - W)
       else mL) := by
  cases st with
  | none =>
    have ha : tableAlignCode none = ['L'] := rfl
    have hb : styleAlign none = ([] : List Char) := rfl
    unfold tableStartX
    rw [ha, if_neg (by decide), if_neg (by decide), hb,
      if_neg (by decide), if_neg (by decide)]
  | some stv =>
    have hb : styleAlign (some stv) = stv.align := rfl
    unfold tableStartX
    rw [hb]
    have hcode : tableAlignCode (some stv)
        = (if stv.align = "center".toList then ['C']
           else if stv.align = "right".toList then ['R'] else ['L']) := rfl
    by_cases h1 : stv.align = "center".toList
    · have ha : tableAlignCode (some stv) = ['C'] := by
        rw [hcode, if_pos h1]
      rw [ha, if_pos rfl, if_pos h1]
    · by_cases h2 : stv.align = "right".toList
      · have ha : tableAlignCode (some stv) = ['R'] := by
          rw [hcode, if_neg h1, if_pos h2]
        rw [ha, if_neg (by decide), if_pos rfl, if_neg h1, if_pos h2]
      · have ha : tableAlignCode (some stv) = ['L'] := by
          rw [hcode, if_neg h1, if_neg h2]
        rw [ha, if_neg (by decide), if_neg (by decide), if_neg h1, if_neg h2]

/-- Claim C7: for a table with columns summing to W on a page with
available width A = page width − left margin − right margin, the first
cell of the table (hence the table itself) is drawn at X = left margin
(left alignment), left margin + (A−W)/2 (center), or left margin + (A−W)
(right) — for every incoming cursor position, i.e. independent of the
cursor X left by any preceding element. -/
theorem c7_table_start_x (df : List Char) (mL mR pageW : ℚ) (el : TableElement)
    (rows : List TableRow) (x0 y0 : ℚ)
    (hc : el.columns ≠ []) (hr : el.rowsVal = RowsVal.rows rows) (hrne : rows ≠ []) :
    firstCellX (renderTable df mL mR pageW el ⟨x0, y0, []⟩).ops
      = some (if styleAlign el.style = "center".toList
              then mL + ((pageW - mL - mR) - sumWidths el.columns) / 2
              else if styleAlign el.style = "right".toList
              then mL + ((pageW - mL - mR) - sumWidths el.columns)
              else mL) := by
  have hce : el.columns.isEmpty = false := by
    cases hcc : el.columns with
    | nil => exact absurd hcc hc
    | cons a b => rfl
  have hre : rows.isEmpty = false := by
    cases hrr : rows with
    | nil => exact absurd hrr hrne
    | cons a b => rfl
  obtain ⟨col, cs, hcols⟩ : ∃ col cs, el.columns = col :: cs := by
    cases hcc : el.columns with
    | nil => exact absurd hcc hc
    | cons a b => exact ⟨a, b, rfl⟩
  unfold renderTable
  rw [hce, hr]
  simp only [Bool.false_eq_true, if_false, hre]
  rw [← tableStartX_formula]
  set startX := tableStartX el.style mL (pageW - mL - mR) (sumWidths el.columns) with hsx
  set s1 : PDFState := setXY startX y0 ⟨x0, y0, []⟩ with hs1
  set s2 : PDFState := (match el.style with
    | some st => applyStyle df (some st) s1
    | none => s1) with hs2
  have hs2x : s2.x = startX := by
    rw [hs2]
    cases el.style with
    | some st =>
      rw [applyStyle_x]
      rfl
    | none => rfl
  have hs2ops : firstCellX s2.ops = none := by
    rw [hs2]
    cases el.style with
    | some st =>
      rw [firstCellX_applyStyle]
      rfl
    | none => rfl
  rw [hcols, renderTableHeader_cons]
  set sc : PDFState := cellFormat col.width 8 col.header
    (match el.style with
     | some stv => if stv.border ≠ [] then stv.border else ['1']
     | none => ['1'])
    0 (colAlignCode col.align)
    (match el.style with
     | some stv => stv.fill
     | none => false) s2 with hsc
  have hfc : firstCellX sc.ops = some startX := by
    rw [hsc, cellFormat_ops]
    rw [firstCellX_append_none hs2ops, hs2x]
    rfl
  have hle : OpsLe sc (renderTableRows df startX (col :: cs) rows
      (setXY startX ((renderTableHeader el.style cs sc).y + 8)
        (renderTableHeader el.style cs sc))) := by
    refine opsLe_trans (opsLe_renderTableHeader el.style cs sc) ?_
    refine opsLe_trans
      (opsLe_setXY startX ((renderTableHeader el.style cs sc).y + 8)
        (renderTableHeader el.style cs sc)) ?_
    exact opsLe_renderTableRows df startX (col :: cs) rows _
  obtain ⟨δ, hδ⟩ := hle
  rw [hδ]
  exact firstCellX_append_some hfc δ

theorem c7_table_start_x_witness :
    (([⟨"H".toList, 50, []⟩] : List TableColumn) ≠ []) ∧
      ((⟨some {align := "center".toList}, [⟨"H".toList, 50, []⟩],
          RowsVal.rows [⟨["a".toList], none⟩]⟩ : TableElement).rowsVal
        = RowsVal.rows [⟨["a".toList], none⟩]) ∧
      (([⟨["a".toList], none⟩] : List TableRow) ≠ []) ∧
      firstCellX (renderTable "Arial".toList 15 15 210
          (⟨some {align := "center".toList}, [⟨"H".toList, 50, []⟩],
            RowsVal.rows [⟨["a".toList], none⟩]⟩ : TableElement) ⟨99, 7, []⟩).ops
        = some (if styleAlign (some {align := "center".toList}) = "center".toList
                then 15 + ((210 - 15 - 15) - sumWidths [⟨"H".toList, 50, []⟩]) / 2
                else if styleAlign (some {align := "center".toList}) = "right".toList
                then 15 + ((210 - 15 - 15) - sumWidths [⟨"H".toList, 50, []⟩])
                else 15) :=
  ⟨by decide, rfl, by decide,
    c7_table_start_x "Arial".toList 15 15 210
      (⟨some {align := "center".toList}, [⟨"H".toList, 50, []⟩],
        RowsVal.rows [⟨["a".toList], none⟩]⟩ : TableElement)
      [⟨["a".toList], none⟩] 99 7 (by decide) rfl (by decide)⟩

/-- Claim-side: a draw-cell call with border "1", height 8 and fill
disabled; non-cell calls satisfy this vacuously. -/
def dataCellOk : DrawOp → Bool
  | DrawOp.cell _ _ _ h _ border _ _ fill =>
    decide (border = ['1']) && decide (h = (8 : ℚ)) && decide (fill = false)
  | _ => true

/-- Claim-side: replace the border and fill settings of a row's style (if
the row has one) by arbitrary values. -/
def rowWithBorderFill (b : List Char) (f : Bool) (row : TableRow) : TableRow :=
  { row with style := row.style.map fun st => { st with border := b, fill := f } }

theorem dataCellOk_emit {P : PDFState} {op : DrawOp} (hop : dataCellOk op = true)
    (h : ∀ o ∈ P.ops, dataCellOk o = true) :
    ∀ o ∈ (emit op P).ops, dataCellOk o = true := by
  intro o ho
  simp only [emit, List.mem_append, List.mem_singleton] at ho
  rcases ho with h1 | h2
  · exact h o h1
  · exact h2 ▸ hop

theorem dataCellOk_applyStyle {df : List Char} {st : Option Style} {s : PDFState}
    (h : ∀ o ∈ s.ops, dataCellOk o = true) :
    ∀ o ∈ (applyStyle df st s).ops, dataCellOk o = true := by
  cases st with
  | none => exact dataCellOk_emit rfl (dataCellOk_emit rfl h)
  | some st =>
    dsimp only [applyStyle]
    split_ifs <;>
      first
        | exact dataCellOk_emit rfl (dataCellOk_emit rfl (dataCellOk_emit rfl h))
        | exact dataCellOk_emit rfl (dataCellOk_emit rfl h)

theorem dataCellOk_renderTableRowCells :
    ∀ (cells : List (List Char)) (cols : List TableColumn) (s : PDFState),
      (∀ o ∈ s.ops, dataCellOk o = true) →
      ∀ o ∈ (renderTableRowCells cols cells s).ops, dataCellOk o = true := by
  intro cells
  induction cells with
  | nil => intro cols s h; cases cols <;> exact h
  | cons cell rest ih =>
    intro cols s h
    cases cols with
    | nil => exact h
    | cons col cs =>
      refine ih cs _ ?_
      intro o ho
      rw [cellFormat_ops] at ho
      rcases List.mem_append.mp ho with h1 | h2
      · exact h o h1
      · rw [List.mem_singleton] at h2
        subst h2
        simp [dataCellOk]

theorem dataCellOk_renderTableRows (df : List Char) (startX : ℚ)
    (cols : List TableColumn) :
    ∀ (rows : List TableRow) (s : PDFState),
      (∀ o ∈ s.ops, dataCellOk o = true) →
      ∀ o ∈ (renderTableRows df startX cols rows s).ops, dataCellOk o = true := by
  intro rows
  induction rows with
  | nil => intro s h; exact h
  | cons row rest ih =>
    intro s h
    refine ih _ ?_
    show ∀ o ∈ (setXY _ _ _).ops, dataCellOk o = true
    have hstyle : ∀ o ∈ (match row.style with
        | some st => applyStyle df (some st) s
        | none => emit (DrawOp.setTextColor 0 0 0)
            (emit (DrawOp.setFont df [] 10) s)).ops, dataCellOk o = true := by
      cases row.style with
      | some st => exact dataCellOk_applyStyle h
      | none => exact dataCellOk_emit rfl (dataCellOk_emit rfl h)
    exact dataCellOk_renderTableRowCells row.cells cols _ hstyle

theorem applyStyle_borderFill_irrelevant (df : List Char) (b : List Char) (f : Bool)
    (st : Style) (s : PDFState) :
    applyStyle df (some { st with border := b, fill := f }) s
      = applyStyle df (some st) s := rfl

theorem renderTableRows_borderFill_invariant (df : List Char) (startX : ℚ)
    (cols : List TableColumn) (b : List Char) (f : Bool) :
    ∀ (rows : List TableRow) (s : PDFState),
      renderTableRows df startX cols (rows.map (rowWithBorderFill b f)) s
        = renderTableRows df startX cols rows s := by
  intro rows
  induction rows with
  | nil => intro s; rfl
  | cons row rest ih =>
    intro s
    show renderTableRows df startX cols
        (rowWithBorderFill b f row :: rest.map (rowWithBorderFill b f)) s = _
    unfold renderTableRows
    rw [ih]
    have hcells : (rowWithBorderFill b f row).cells = row.cells := rfl
    have hsty : (match (rowWithBorderFill b f row).style with
        | some st => applyStyle df (some st) s
        | none => emit (DrawOp.setTextColor 0 0 0) (emit (DrawOp.setFont df [] 10) s))
      = (match row.style with
        | some st => applyStyle df (some st) s
        | none => emit (DrawOp.setTextColor 0 0 0) (emit (DrawOp.setFont df [] 10) s)) := by
      have hst : (rowWithBorderFill b f row).style
          = row.style.map (fun st => { st with border := b, fill := f }) := rfl
      rw [hst]
      cases row.style with
      | none => rfl
      | some st => exact applyStyle_borderFill_irrelevant df b f st s
    rw [hcells, hsty]

/-- Claim C10: every data cell of a table is drawn with border "1",
height 8 and fill disabled, for every row list and every row style; and
the entire data-row trace (style calls included) is unchanged when the
border and fill settings of the rows' styles are replaced by arbitrary
values — so a row's style never influences the cell border or the fill
flag of the data cells. -/
theorem c10_data_cells_fixed (df : List Char) (startX : ℚ) (cols : List TableColumn)
    (rows : List TableRow) (x0 y0 : ℚ) :
    (∀ op ∈ (renderTableRows df startX cols rows ⟨x0, y0, []⟩).ops,
      dataCellOk op = true) ∧
      ∀ (b : List Char) (f : Bool),
        renderTableRows df startX cols (rows.map (rowWithBorderFill b f)) ⟨x0, y0, []⟩
          = renderTableRows df startX cols rows ⟨x0, y0, []⟩ :=
  ⟨dataCellOk_renderTableRows df startX cols rows ⟨x0, y0, []⟩ (by intro o ho; cases ho),
    fun b f => renderTableRows_borderFill_invariant df startX cols b f rows ⟨x0, y0, []⟩⟩

theorem c10_data_cells_fixed_witness :
    DrawOp.cell 0 0 30 8 "a".toList ['1'] 0 ['L'] false ∈
        (renderTableRows "Arial".toList 15 [⟨"H".toList, 30, []⟩]
          [⟨["a".toList], some {bold := true, border := "0".toList, fill := true}⟩]
          ⟨0, 0, []⟩).ops ∧
      dataCellOk (DrawOp.cell 0 0 30 8 "a".toList ['1'] 0 ['L'] false) = true :=
  ⟨by decide,
    (c10_data_cells_fixed "Arial".toList 15 [⟨"H".toList, 30, []⟩]
      [⟨["a".toList], some {bold := true, border := "0".toList, fill := true}⟩] 0 0).1
      (DrawOp.cell 0 0 30 8 "a".toList ['1'] 0 ['L'] false) (by decide)⟩

end PdfWasm
